import Mathlib

/-!
# Verification of `export_calibre_library.py`

A shallow embedding of the Calibre-library-to-HTML export script.  Python's
dynamically typed JSON values are modelled by the inductive type `PyVal`;
the normalization pipeline (`process_book_metadata`), the export driver
(`export_all_books`), the executable locator (`find_calibredb`) and the
cover-copy step are translated into executable Lean definitions, and the
behavioural claims about them are proved below, after the definitions.
-/

set_option autoImplicit false

namespace CalibreExport

/-- A Python/JSON value as produced by `json.loads` on `calibredb` output.
(Floats are not needed by any property considered here and are omitted.) -/
inductive PyVal where
  | vNone  : PyVal
  | vBool  : Bool → PyVal
  | vInt   : Int → PyVal
  | vStr   : String → PyVal
  | vList  : List PyVal → PyVal
  | vDict  : List (String × PyVal) → PyVal

open PyVal

mutual

/-- Decidable equality for `PyVal` (the derive handler does not support the
nested occurrences through `List`). -/
def PyVal.decEq : (a b : PyVal) → Decidable (a = b)
  | vNone, vNone => isTrue rfl
  | vNone, vBool _ => isFalse nofun
  | vNone, vInt _ => isFalse nofun
  | vNone, vStr _ => isFalse nofun
  | vNone, vList _ => isFalse nofun
  | vNone, vDict _ => isFalse nofun
  | vBool _, vNone => isFalse nofun
  | vBool a, vBool b =>
      match instDecidableEqBool a b with
      | isTrue h => isTrue (h ▸ rfl)
      | isFalse h => isFalse (fun e => h (PyVal.vBool.inj e))
  | vBool _, vInt _ => isFalse nofun
  | vBool _, vStr _ => isFalse nofun
  | vBool _, vList _ => isFalse nofun
  | vBool _, vDict _ => isFalse nofun
  | vInt _, vNone => isFalse nofun
  | vInt _, vBool _ => isFalse nofun
  | vInt a, vInt b =>
      match Int.decEq a b with
      | isTrue h => isTrue (h ▸ rfl)
      | isFalse h => isFalse (fun e => h (PyVal.vInt.inj e))
  | vInt _, vStr _ => isFalse nofun
  | vInt _, vList _ => isFalse nofun
  | vInt _, vDict _ => isFalse nofun
  | vStr _, vNone => isFalse nofun
  | vStr _, vBool _ => isFalse nofun
  | vStr _, vInt _ => isFalse nofun
  | vStr a, vStr b =>
      match String.decEq a b with
      | isTrue h => isTrue (h ▸ rfl)
      | isFalse h => isFalse (fun e => h (PyVal.vStr.inj e))
  | vStr _, vList _ => isFalse nofun
  | vStr _, vDict _ => isFalse nofun
  | vList _, vNone => isFalse nofun
  | vList _, vBool _ => isFalse nofun
  | vList _, vInt _ => isFalse nofun
  | vList _, vStr _ => isFalse nofun
  | vList a, vList b =>
      match PyVal.decEqList a b with
      | isTrue h => isTrue (h ▸ rfl)
      | isFalse h => isFalse (fun e => h (PyVal.vList.inj e))
  | vList _, vDict _ => isFalse nofun
  | vDict _, vNone => isFalse nofun
  | vDict _, vBool _ => isFalse nofun
  | vDict _, vInt _ => isFalse nofun
  | vDict _, vStr _ => isFalse nofun
  | vDict _, vList _ => isFalse nofun
  | vDict a, vDict b =>
      match PyVal.decEqDict a b with
      | isTrue h => isTrue (h ▸ rfl)
      | isFalse h => isFalse (fun e => h (PyVal.vDict.inj e))
termination_by structural a => a

def PyVal.decEqList : (a b : List PyVal) → Decidable (a = b)
  | [], [] => isTrue rfl
  | [], _ :: _ => isFalse nofun
  | _ :: _, [] => isFalse nofun
  | a :: as, b :: bs =>
      match PyVal.decEq a b with
      | isFalse h => isFalse (fun e => h (List.cons.inj e).1)
      | isTrue h1 =>
        match PyVal.decEqList as bs with
        | isTrue h2 => isTrue (h1 ▸ h2 ▸ rfl)
        | isFalse h2 => isFalse (fun e => h2 (List.cons.inj e).2)
termination_by structural a => a

def PyVal.decEqDict : (a b : List (String × PyVal)) → Decidable (a = b)
  | [], [] => isTrue rfl
  | [], _ :: _ => isFalse nofun
  | _ :: _, [] => isFalse nofun
  | (k, a) :: as, (l, b) :: bs =>
      match String.decEq k l with
      | isFalse h => isFalse (fun e => h (congrArg Prod.fst (List.cons.inj e).1))
      | isTrue hk =>
        match PyVal.decEq a b with
        | isFalse h => isFalse (fun e => h (congrArg Prod.snd (List.cons.inj e).1))
        | isTrue hv =>
          match PyVal.decEqDict as bs with
          | isTrue ht => isTrue (hk ▸ hv ▸ ht ▸ rfl)
          | isFalse ht => isFalse (fun e => ht (List.cons.inj e).2)
termination_by structural a => a

end

instance : DecidableEq PyVal := PyVal.decEq

/-- Python truthiness (`bool(v)`): `None`, `False`, `0`, `""`, `[]`, `{}`
are falsy, everything else truthy. -/
def PyVal.truthy : PyVal → Bool
  | vNone   => false
  | vBool b => b
  | vInt n  => n != 0
  | vStr s  => s != ""
  | vList l => !l.isEmpty
  | vDict d => !d.isEmpty

/-- Escaping used by Python `repr` of a string (approximated: single
quotes with backslash escaping of the quote characters). -/
def reprEscape (s : String) : String :=
  String.mk (s.data.flatMap (fun c =>
    if c = '\\' then ['\\', '\\']
    else if c = '\'' then ['\\', '\''] else [c]))

mutual

/-- Python `repr(v)` (approximated for quoting of nested strings). -/
def PyVal.pyRepr : PyVal → String
  | vNone   => "None"
  | vBool b => if b then "True" else "False"
  | vInt n  => toString n
  | vStr s  => "'" ++ reprEscape s ++ "'"
  | vList l => "[" ++ String.intercalate ", " (PyVal.pyReprList l) ++ "]"
  | vDict d => "\x7b" ++ String.intercalate ", " (PyVal.pyReprDict d) ++ "\x7d"
termination_by structural v => v

def PyVal.pyReprList : List PyVal → List String
  | []      => []
  | v :: vs => PyVal.pyRepr v :: PyVal.pyReprList vs
termination_by structural l => l

def PyVal.pyReprDict : List (String × PyVal) → List String
  | []           => []
  | (k, v) :: es =>
      ("'" ++ reprEscape k ++ "': " ++ PyVal.pyRepr v) :: PyVal.pyReprDict es
termination_by structural l => l

end

/-- Python `str(v)`.  For strings it is the string itself; for containers it
is the `repr` form.  (`repr` of a string is approximated with single quotes
and backslash escaping of the quote characters; no claim depends on the
exact repr of nested containers.) -/
def PyVal.pyStr : PyVal → String
  | vStr s => s
  | v      => PyVal.pyRepr v

/-- A raw book record: the JSON object `calibredb list --for-machine`
produces for one book (`RawBookRecord` in the data model).  Keys of a real
Python dict are unique; lookups take the first matching entry. -/
abbrev RawBook := List (String × PyVal)

/-- Python `book.get(key, default)` on a raw record. -/
def pyGet (b : RawBook) (k : String) (dflt : PyVal) : PyVal :=
  match b.find? (fun kv => kv.1 = k) with
  | some kv => kv.2
  | none    => dflt

/-- Python `key in book` on a raw record. -/
def pyContains (b : RawBook) (k : String) : Bool :=
  b.any (fun kv => kv.1 = k)

/-! ## String helpers

Python's string operations are modelled character-wise (structurally
recursive, so that every proof obligation on concrete inputs reduces). -/

/-- Python `s.split(sep)` for a single-character separator: split at every
occurrence, keeping empty segments (`''.split(sep) == ['']`). -/
def splitChar (sep : Char) : List Char → List (List Char)
  | [] => [[]]
  | c :: rest =>
    if c = sep then [] :: splitChar sep rest
    else
      match splitChar sep rest with
      | h :: t => (c :: h) :: t
      | [] => [[c]]

def pySplit (s : String) (sep : Char) : List String :=
  (splitChar sep s.data).map String.mk

/-- The whitespace stripped by Python `str.strip()` (ASCII part; the other
Unicode whitespace characters do not occur in `calibredb` fields). -/
def pySpace (c : Char) : Bool :=
  c = ' ' || c = '\t' || c = '\n' || c = '\r' || c = '\x0b' || c = '\x0c'

/-- Python `s.strip()`. -/
def pyStrip (s : String) : String :=
  String.mk (((s.data.dropWhile pySpace).reverse.dropWhile pySpace).reverse)

/-- Python `c in s` for a single character. -/
def pyInStr (s : String) (c : Char) : Bool :=
  s.data.any (fun x => x = c)

/-! ## A model of `datetime.fromisoformat`

The script parses publication dates with
`datetime.fromisoformat(pubdate.replace('Z', '+00:00'))` and reformats the
result with `strftime('%Y-%m-%d')`.  The grammar below follows CPython's
strict parser: `YYYY-MM-DD[*HH[:MM[:SS[.fff[fff]]]][+HH:MM[:SS[.ffffff]]]]`
where `*` is an arbitrary separator character, with the range checks the
`datetime`/`timezone` constructors perform.  (Digits are required where
CPython's `int()` would also tolerate leading signs or whitespace inside a
slice; no realistic date string hits that difference.)  Only the date
component is retained, which is all `%Y-%m-%d` uses. -/

/-- The calendar date carried by a parsed `datetime`. -/
structure PyDate where
  year  : Nat
  month : Nat
  day   : Nat
deriving DecidableEq

def isLeapYear (y : Nat) : Bool :=
  y % 4 == 0 && (y % 100 != 0 || y % 400 == 0)

def daysInMonth (y m : Nat) : Nat :=
  if m = 2 then (if isLeapYear y then 29 else 28)
  else if m = 4 ∨ m = 6 ∨ m = 9 ∨ m = 11 then 30
  else 31

/-- Two decimal digits as a number, or `none` if either is not a digit. -/
def digit2 (a b : Char) : Option Nat :=
  if a.isDigit && b.isDigit then some ((a.toNat - 48) * 10 + (b.toNat - 48))
  else none

def digitsVal (cs : List Char) : Nat :=
  cs.foldl (fun n c => n * 10 + (c.toNat - 48)) 0

/-- The date part: exactly `YYYY-MM-DD` with the `datetime` constructor's
range checks (`1 <= year <= 9999` is implied by four digits plus
`MINYEAR = 1`). -/
def parseIsoDate : List Char → Option PyDate
  | [y1, y2, y3, y4, s1, m1, m2, s2, d1, d2] =>
    if y1.isDigit && y2.isDigit && y3.isDigit && y4.isDigit
        && s1 = '-' && s2 = '-' then
      match digit2 m1 m2, digit2 d1 d2 with
      | some m, some d =>
        let y := digitsVal [y1, y2, y3, y4]
        if 1 ≤ y && 1 ≤ m && m ≤ 12 && 1 ≤ d && d ≤ daysInMonth y m then
          some ⟨y, m, d⟩
        else none
      | _, _ => none
    else none
  | _ => none

/-- Time components `(hour, minute, second, microsecond)` from
`_parse_hh_mm_ss_ff`: `HH[:MM[:SS[.fff | .ffffff]]]`, no range checks yet. -/
def parseHMSF : List Char → Option (Nat × Nat × Nat × Nat)
  | [a, b] => (digit2 a b).map (fun h => (h, 0, 0, 0))
  | [a, b, ':', c, d] =>
      match digit2 a b, digit2 c d with
      | some h, some m => some (h, m, 0, 0)
      | _, _ => none
  | [a, b, ':', c, d, ':', e, f] =>
      match digit2 a b, digit2 c d, digit2 e f with
      | some h, some m, some s => some (h, m, s, 0)
      | _, _, _ => none
  | a :: b :: ':' :: c :: d :: ':' :: e :: f :: '.' :: frac =>
      match digit2 a b, digit2 c d, digit2 e f with
      | some h, some m, some s =>
        if frac.all Char.isDigit then
          if frac.length = 3 then some (h, m, s, digitsVal frac * 1000)
          else if frac.length = 6 then some (h, m, s, digitsVal frac)
          else none
        else none
      | _, _, _ => none
  | _ => none

/-- `datetime`'s range checks on a wall-clock time. -/
def validTime (c : Nat × Nat × Nat × Nat) : Bool :=
  c.1 ≤ 23 && c.2.1 ≤ 59 && c.2.2.1 ≤ 59

/-- `timezone` accepts any offset strictly between -24 and +24 hours. -/
def validTzOffset (c : Nat × Nat × Nat × Nat) : Bool :=
  (c.1 * 3600 + c.2.1 * 60 + c.2.2.1) * 1000000 + c.2.2.2 < 86400000000

/-- Split the time string at the timezone marker: the first `-` if any,
else the first `+` (CPython's `tstr.find('-') + 1 or tstr.find('+') + 1`).
Returns the time part and, when a marker exists, the part after it. -/
def splitTzMarker (cs : List Char) : List Char × Option (List Char) :=
  match cs.findIdx? (fun c => c = '-') with
  | some i => (cs.take i, some (cs.drop (i + 1)))
  | none =>
    match cs.findIdx? (fun c => c = '+') with
    | some i => (cs.take i, some (cs.drop (i + 1)))
    | none => (cs, none)

/-- The time-of-day part including an optional offset
(`_parse_isoformat_time`): succeeds iff the whole suffix is valid. -/
def parseIsoTime (cs : List Char) : Bool :=
  match splitTzMarker cs with
  | (tp, none) =>
    match parseHMSF tp with
    | some c => validTime c
    | none => false
  | (tp, some tz) =>
    match parseHMSF tp with
    | none => false
    | some c =>
      if validTime c && (tz.length = 5 || tz.length = 8 || tz.length = 15) then
        match parseHMSF tz with
        | some tc => validTzOffset tc
        | none => false
      else false

/-- `datetime.fromisoformat`, reduced to the date it yields (the time and
offset only decide success).  Position 10, when present, is an arbitrary
separator character, and a lone separator with nothing after it fails
(`_parse_isoformat_time` rejects strings shorter than 2). -/
def fromisoformat (s : String) : Option PyDate :=
  let cs := s.data
  match parseIsoDate (cs.take 10) with
  | none => none
  | some d =>
    match cs.drop 10 with
    | [] => some d
    | _sep :: tcs => if parseIsoTime tcs then some d else none

def padZero (width : Nat) (n : Nat) : String :=
  let s := toString n
  String.mk (List.replicate (width - s.length) '0') ++ s

/-- `dt.strftime('%Y-%m-%d')` (zero-padded fields, as the `datetime`
documentation specifies). -/
def formatYMD (d : PyDate) : String :=
  padZero 4 d.year ++ "-" ++ padZero 2 d.month ++ "-" ++ padZero 2 d.day

/-! ## Field normalization (`process_book_metadata`) -/

/-- `pubdate.replace('Z', '+00:00')`: Python `str.replace` replaces every
occurrence. -/
def replaceZ (s : String) : String :=
  String.mk (s.data.flatMap (fun c => if c = 'Z' then "+00:00".data else [c]))

/-- The publication-date normalization block of `process_book_metadata`:
a truthy string containing `'T'` is parsed (after the `Z` replacement) and
reformatted to `YYYY-MM-DD`; any parse error leaves the value unchanged,
as does any non-string or falsy value. -/
def processPubdate (v : PyVal) : PyVal :=
  if v.truthy then
    match v with
    | vStr s =>
      if pyInStr s 'T' then
        match fromisoformat (replaceZ s) with
        | some d => vStr (formatYMD d)
        | none => vStr s
      else vStr s
    | _ => v
  else v

/-- The authors normalization block: a truthy string is split on `'&'`
with each segment stripped; a truthy list is kept; any other truthy value
is wrapped as `[str(v)]`; a falsy value gives `[]`.  (`str.strip` is
modelled by `String.trim`, which strips the ASCII whitespace characters.) -/
def processAuthors (v : PyVal) : List PyVal :=
  if v.truthy then
    match v with
    | vStr s => (pySplit s '&').map (fun a => vStr (pyStrip a))
    | vList l => l
    | other => [vStr other.pyStr]
  else []

/-- The tags normalization block: a string is split on `','`, stripped,
with empty segments dropped; a list is kept; anything else gives `[]`. -/
def processTags (v : PyVal) : List PyVal :=
  match v with
  | vStr s => ((pySplit s ',').map pyStrip).filterMap
      (fun t => if t ≠ "" then some (vStr t) else none)
  | vList l => l
  | _ => []

/-- The derived unique identifier: the raw `uuid` field if truthy, else
the `uuid` entry of a dict-valued `identifiers` field if truthy, else the
synthesized string `book-<id>` with `id` defaulting to `0`. -/
def deriveUuid (book : RawBook) : PyVal :=
  let u0 := pyGet book "uuid" (vStr "")
  let u1 :=
    if !u0.truthy && pyContains book "identifiers" then
      match pyGet book "identifiers" (vDict []) with
      | vDict ids => pyGet ids "uuid" (vStr "")
      | _ => u0
    else u0
  if u1.truthy then u1
  else vStr ("book-" ++ (pyGet book "id" (vInt 0)).pyStr)

/-! ## Filesystem model and cover resolution -/

/-- The filesystem: a path either holds file contents or does not exist.
`os.path.exists p` is `(fs p).isSome`. -/
def Fs : Type := String → Option String

/-- `os.path.isabs` on a POSIX system. -/
def pyIsAbs (s : String) : Bool :=
  match s.data with
  | '/' :: _ => true
  | _ => false

/-- `posixpath.dirname`: everything up to the last `/`, with trailing
slashes stripped unless the head is all slashes. -/
def pyDirname (p : String) : String :=
  match (p.data.reverse.findIdx? (fun c => c = '/')) with
  | none => ""
  | some ri =>
    let i := p.data.length - 1 - ri
    let head := String.mk (p.data.take (i + 1))
    if head ≠ "" && !(head.data.all (fun c => c = '/')) then
      String.mk (head.data.reverse.dropWhile (fun c => c = '/')).reverse
    else head

/-- `posixpath.join` for two components. -/
def pyJoin (a b : String) : String :=
  if pyIsAbs b then b
  else if a = "" || a.data.getLast? = some '/' then a ++ b
  else a ++ "/" ++ b

/-- The cover-resolution block of `process_book_metadata`: a truthy,
relative, string cover path is resolved against the directory of the first
format file, trying `cover.jpg` there first and then the given filename;
the first existing candidate wins, otherwise the value is kept.  (The
`formats` field is only consulted when it is a list headed by a string,
the shape `calibredb` emits; other shapes would make `os.path.dirname`
raise rather than return.) -/
def resolveCover (ex : String → Bool) (book : RawBook) : PyVal :=
  let cover := pyGet book "cover" (vStr "")
  match cover with
  | vStr c =>
    if c != "" && !pyIsAbs c then
      match pyGet book "formats" (vList []) with
      | vList (vStr f :: _) =>
        let bookDir := pyDirname f
        let cand1 := pyJoin bookDir "cover.jpg"
        if ex cand1 then vStr cand1
        else
          let cand2 := pyJoin bookDir c
          if ex cand2 then vStr cand2 else vStr c
      | _ => vStr c
    else vStr c
  | v => v

/-! ## `process_book_metadata` -/

/-- The fixed-shape record built at the end of `process_book_metadata`
(`NormalizedBook` in the data model). -/
structure NormalizedBook where
  id           : String
  uuid         : PyVal
  title        : PyVal
  authors      : List PyVal
  authors_sort : PyVal
  tags         : List PyVal
  series       : PyVal
  series_index : PyVal
  pubdate      : PyVal
  publisher    : PyVal
  language     : PyVal
  rating       : PyVal
  formats      : PyVal
  cover        : PyVal
  comments     : PyVal
  size         : PyVal
deriving DecidableEq

/-- `process_book_metadata(book)`: normalize one raw record.  `ex` is
`os.path.exists`, used only by cover resolution. -/
def process_book_metadata (ex : String → Bool) (book : RawBook) : NormalizedBook where
  id           := (pyGet book "id" (vInt 0)).pyStr
  uuid         := deriveUuid book
  title        := pyGet book "title" (vStr "Unknown")
  authors      := processAuthors (pyGet book "authors" (vStr ""))
  authors_sort := pyGet book "author_sort" (vStr "")
  tags         := processTags (pyGet book "tags" (vList []))
  series       := pyGet book "series" (vStr "")
  series_index := pyGet book "series_index" (vStr "")
  pubdate      := processPubdate (pyGet book "pubdate" (vStr ""))
  publisher    := pyGet book "publisher" (vStr "")
  language     := pyGet book "languages" (vStr "")
  rating       := pyGet book "rating" (vStr "")
  formats      := pyGet book "formats" (vList [])
  cover        := resolveCover ex book
  comments     := pyGet book "comments" (vStr "")
  size         := pyGet book "size" (vInt 0)

/-! ## The metadata mapping and the processing loop -/

/-- The per-book summary stored in the metadata mapping
(`MetadataEntry` in the data model). -/
structure MetaEntry where
  title       : PyVal
  creator     : String
  description : PyVal
  publisher   : PyVal
  subject     : List PyVal
  date        : PyVal
  language    : PyVal
  series      : PyVal
  rating      : PyVal
deriving DecidableEq

/-- `', '.join(book['authors'])`.  (Real `str.join` raises on non-string
elements; `calibredb` authors are strings, and non-strings are rendered
with `str`.) -/
def joinAuthors (authors : List PyVal) : String :=
  String.intercalate ", " (authors.map PyVal.pyStr)

/-- The `metadata_dict[uuid] = { ... }` entry built from a processed
book. -/
def mkMetaEntry (b : NormalizedBook) : MetaEntry where
  title       := b.title
  creator     := joinAuthors b.authors
  description := b.comments
  publisher   := b.publisher
  subject     := b.tags
  date        := b.pubdate
  language    := b.language
  series      := b.series
  rating      := b.rating

/-- The metadata mapping, insertion-ordered like a Python dict. -/
abbrev MetaDict := List (PyVal × MetaEntry)

/-- `d[k] = v` on a Python dict: update in place when the key exists,
append otherwise. -/
def pyInsert (d : MetaDict) (k : PyVal) (v : MetaEntry) : MetaDict :=
  if d.any (fun kv => kv.1 = k) then
    d.map (fun kv => if kv.1 = k then (k, v) else kv)
  else d ++ [(k, v)]

/-- `d.get(k)` / `k in d` via the first matching entry. -/
def pyLookup (d : MetaDict) (k : PyVal) : Option MetaEntry :=
  (d.find? (fun kv => kv.1 = k)).map (fun kv => kv.2)

/-- The `for i, raw_book in enumerate(raw_books, 1)` loop: process each
raw record in order, collect the processed books, and accumulate the
metadata mapping (overwriting on duplicate derived identifiers). -/
def processLoop (ex : String → Bool) : List RawBook → MetaDict →
    List NormalizedBook × MetaDict
  | [], d => ([], d)
  | r :: rs, d =>
    let b := process_book_metadata ex r
    let rest := processLoop ex rs (pyInsert d b.uuid (mkMetaEntry b))
    (b :: rest.1, rest.2)

/-! ## The export driver (`export_all_books`) -/

/-- Python list truncation `l[:n]` (negative stops cut from the end,
clamped at zero). -/
def pySliceTo {α : Type} (l : List α) (n : Int) : List α :=
  if 0 ≤ n then l.take n.toNat else l.take (l.length - n.natAbs)

/-- The `if limit: raw_books = raw_books[:limit]` step: `None` and `0`
are falsy, so only a nonzero limit truncates. -/
def applyLimit (raws : List RawBook) (limit : Option Int) : List RawBook :=
  match limit with
  | some n => if n ≠ 0 then pySliceTo raws n else raws
  | none => raws

/-- Writing a file (also `shutil.copy2` of an existing source). -/
def fsWrite (fs : Fs) (p : String) (v : Option String) : Fs :=
  fun q => if q = p then v else fs q

/-- The cover path of a processed book as used by the copy loop: the copy
happens only for a truthy cover that exists on disk (a non-string truthy
cover would make `os.path.exists` raise; `calibredb` covers are strings).
-/
def coverSrc (b : NormalizedBook) : Option String :=
  match b.cover with
  | vStr s => if s ≠ "" then some s else none
  | _ => none

/-- `covers_dir / f"{uuid}.jpg"`. -/
def coverDest (outputDir : String) (b : NormalizedBook) : String :=
  outputDir ++ "/covers/" ++ b.uuid.pyStr ++ ".jpg"

/-- One iteration of the cover-copy loop. -/
def coverCopyOne (outputDir : String) (fs : Fs) (b : NormalizedBook) : Fs :=
  match coverSrc b with
  | some s => if (fs s).isSome then fsWrite fs (coverDest outputDir b) (fs s) else fs
  | none => fs

/-- The cover-copy step of `export_all_books`: copy each processed book's
existing cover to `<output>/covers/<uuid>.jpg`, in order. -/
def coverCopyStep (outputDir : String) (books : List NormalizedBook) (fs : Fs) : Fs :=
  books.foldl (coverCopyOne outputDir) fs

/-- The `books.html` companion-copy step: copy the viewer from beside the
script when it exists there and is not already the destination. -/
def viewerCopyStep (scriptDir outputDir : String) (fs : Fs) : Fs :=
  let src := scriptDir ++ "/books.html"
  let dst := outputDir ++ "/books.html"
  if (fs src).isSome && src ≠ dst then fsWrite fs dst (fs src) else fs

/-- What a run of `export_all_books` produces.  `booksJs = some l` models
`books.js` written with book list `l` (and likewise `metadataJs`);
`reported = some n` models the final `Books exported: n` report.  `none`
throughout models the early `return` on an empty library, which writes
nothing and reports nothing. -/
structure ExportOutcome where
  booksJs    : Option (List NormalizedBook)
  metadataJs : Option MetaDict
  reported   : Option Nat
deriving DecidableEq

/-- `export_all_books`, given the raw records the extraction stage
yielded: on an empty list it prints `No books found in library` and
returns early; otherwise it truncates by the limit, runs the processing
loop, optionally copies covers, writes the two artifacts, copies the
viewer, and reports the count. -/
def export_all_books (fs : Fs) (scriptDir outputDir : String)
    (exportCovers : Bool) (raws : List RawBook) (limit : Option Int) :
    ExportOutcome × Fs :=
  if raws.isEmpty then (⟨none, none, none⟩, fs)
  else
    let raws' := applyLimit raws limit
    let res := processLoop (fun p => (fs p).isSome) raws' []
    let fs1 := if exportCovers then coverCopyStep outputDir res.1 fs else fs
    let fs2 := viewerCopyStep scriptDir outputDir fs1
    (⟨some res.1, some res.2, some res.1.length⟩, fs2)

/-! ## Locator, extractor and the top-level run -/

/-- The default macOS `calibredb` location. -/
def DEFAULT_CALIBREDB : String :=
  "/Applications/calibre.app/Contents/ebook-viewer.app/Contents/MacOS/calibredb"

/-- Everything the run observes about the outside world: the filesystem,
the CLI arguments, `shutil.which`, the subprocess and the JSON parser. -/
structure Env where
  fs         : Fs
  customPath : Option String
  whichResult : Option String
  /-- `subprocess.run` on the `list` command: `none` models a
  `CalledProcessError` (caught and logged by `run_calibredb`). -/
  listOutput : Option String
  /-- `json.loads`: `none` models a `JSONDecodeError`. -/
  parseJson  : String → Option (List RawBook)
  scriptDir  : String

/-- `find_calibredb`: explicit path if given and existing, else the macOS
default if existing, else a truthy `shutil.which` result; `none` models
`sys.exit(1)` after the guidance message. -/
def find_calibredb (env : Env) : Option String :=
  match env.customPath with
  | some p =>
    if p != "" && (env.fs p).isSome then some p
    else
      if (env.fs DEFAULT_CALIBREDB).isSome then some DEFAULT_CALIBREDB
      else match env.whichResult with
        | some r => if r != "" then some r else none
        | none => none
  | none =>
    if (env.fs DEFAULT_CALIBREDB).isSome then some DEFAULT_CALIBREDB
    else match env.whichResult with
      | some r => if r != "" then some r else none
      | none => none

/-- `run_calibredb` for the metadata listing: the captured stdout on
success, `none` after logging a `CalledProcessError`. -/
def run_calibredb (env : Env) : Option String :=
  env.listOutput

/-- The stated no-op fallback parser. -/
def parse_fallback_format (_output : String) : List RawBook := []

/-- `get_all_books_metadata`: a falsy subprocess result gives `[]`; a
JSON parse failure falls back to `parse_fallback_format`, which gives
`[]`. -/
def get_all_books_metadata (env : Env) : List RawBook :=
  match run_calibredb env with
  | none => []
  | some out =>
    if out = "" then []
    else
      match env.parseJson out with
      | some books => books
      | none => parse_fallback_format out

/-- The top-level run: locate `calibredb` (exit status 1 when that
fails), then extract and export; every other failure mode is absorbed
inside the stages, so the run completes with exit status 0. -/
def main_run (env : Env) (outputDir : String) (exportCovers : Bool)
    (limit : Option Int) : Nat × Option (ExportOutcome × Fs) :=
  match find_calibredb env with
  | none => (1, none)
  | some _ =>
    (0, some (export_all_books env.fs env.scriptDir outputDir exportCovers
      (get_all_books_metadata env) limit))

end CalibreExport

namespace CalibreExport

open PyVal

/-! ## Helper lemmas -/

theorem pyGet_not_contains {b : RawBook} {k : String} (dflt : PyVal)
    (h : pyContains b k = false) : pyGet b k dflt = dflt := by
  unfold pyGet
  rw [List.find?_eq_none.mpr]
  intro kv hkv
  intro hk
  have : pyContains b k = true := by
    unfold pyContains
    rw [List.any_eq_true]
    exact ⟨kv, hkv, hk⟩
  rw [this] at h
  exact Bool.noConfusion h

theorem processLoop_books (ex : String → Bool) :
    ∀ (raws : List RawBook) (d : MetaDict),
      (processLoop ex raws d).1 = raws.map (process_book_metadata ex)
  | [], _ => rfl
  | _ :: rs, d => by
    unfold processLoop
    simp [processLoop_books ex rs]

/-! ## C9: a missing title normalizes to the literal string `Unknown` -/

/-- C9: for every raw record whose `title` field is absent, the processed
book's title is the literal string `"Unknown"` (not an empty string). -/
theorem missing_title_is_unknown (ex : String → Bool) (book : RawBook)
    (h : pyContains book "title" = false) :
    (process_book_metadata ex book).title = vStr "Unknown" := by
  show pyGet book "title" (vStr "Unknown") = vStr "Unknown"
  exact pyGet_not_contains _ h

theorem missing_title_is_unknown_witness :
    pyContains [("id", vInt 42)] "title" = false ∧
      (process_book_metadata (fun _ => false) [("id", vInt 42)]).title
        = vStr "Unknown" :=
  ⟨by decide, missing_title_is_unknown (fun _ => false) [("id", vInt 42)] (by decide)⟩

/-! ## C10: a limit of `0` does not truncate -/

/-- C10: a caller-supplied limit of exactly `0` is falsy in
`if limit:`, so the raw list is not truncated and the run is identical to
supplying no limit at all. -/
theorem limit_zero_is_no_limit (fs : Fs) (scriptDir outputDir : String)
    (exportCovers : Bool) (raws : List RawBook) :
    export_all_books fs scriptDir outputDir exportCovers raws (some 0)
      = export_all_books fs scriptDir outputDir exportCovers raws none := by
  unfold export_all_books applyLimit
  simp

/-! ## C1: zero raw records -/

/-- A run against an empty library: the subprocess succeeds and its output
parses as the empty JSON array. -/
def emptyLibEnv : Env where
  fs := fun _ => none
  customPath := none
  whichResult := some "/usr/bin/calibredb"
  listOutput := some "[]"
  parseJson := fun _ => some []
  scriptDir := "/src"

/-- C1 fails on the code: with zero raw records `export_all_books` takes
the `if not raw_books: return` branch, so `books.js` is not written with
an empty list, `metadata.js` is not written with an empty mapping, and no
zero count is reported — nothing is written at all. -/
theorem empty_library_writes_nothing_counterexample :
    get_all_books_metadata emptyLibEnv = [] ∧
      ¬ ((export_all_books emptyLibEnv.fs emptyLibEnv.scriptDir "output" true
            (get_all_books_metadata emptyLibEnv) none).1.booksJs = some [] ∧
         (export_all_books emptyLibEnv.fs emptyLibEnv.scriptDir "output" true
            (get_all_books_metadata emptyLibEnv) none).1.metadataJs = some [] ∧
         (export_all_books emptyLibEnv.fs emptyLibEnv.scriptDir "output" true
            (get_all_books_metadata emptyLibEnv) none).1.reported = some 0) := by
  constructor
  · rfl
  · intro h
    exact Option.noConfusion h.1

/-- C1 amended: for a run whose extraction stage yields zero raw records,
`export_all_books` returns early after printing `No books found in
library`: it writes neither `books.js` nor `metadata.js`, reports no
exported count, and leaves the filesystem untouched. -/
theorem empty_library_returns_early (env : Env) (outputDir : String)
    (exportCovers : Bool) (limit : Option Int)
    (h : get_all_books_metadata env = []) :
    export_all_books env.fs env.scriptDir outputDir exportCovers
        (get_all_books_metadata env) limit
      = (⟨none, none, none⟩, env.fs) := by
  rw [h]
  rfl

theorem empty_library_returns_early_witness :
    get_all_books_metadata emptyLibEnv = [] ∧
      export_all_books emptyLibEnv.fs emptyLibEnv.scriptDir "output" true
          (get_all_books_metadata emptyLibEnv) none
        = (⟨none, none, none⟩, emptyLibEnv.fs) :=
  ⟨rfl, empty_library_returns_early emptyLibEnv "output" true none rfl⟩

/-! ## C7: exit status -/

/-- C7: the run exits non-zero (with status 1) exactly when
`find_calibredb` fails to locate the executable; for every environment in
which it is located — including every subprocess failure
(`listOutput = none`), every JSON parse failure (`parseJson` returning
`none`), missing covers and a missing viewer file — the run continues to
completion and exits with status zero. -/
theorem exit_nonzero_only_when_calibredb_missing (env : Env)
    (outputDir : String) (exportCovers : Bool) (limit : Option Int) :
    ((main_run env outputDir exportCovers limit).1 = 0
        ↔ (find_calibredb env).isSome) ∧
      ((main_run env outputDir exportCovers limit).1 ≠ 0
        ↔ (main_run env outputDir exportCovers limit).1 = 1
            ∧ find_calibredb env = none) ∧
      ((find_calibredb env).isSome
        → (main_run env outputDir exportCovers limit).2
            = some (export_all_books env.fs env.scriptDir outputDir
                exportCovers (get_all_books_metadata env) limit)) := by
  unfold main_run
  cases h : find_calibredb env <;> simp

theorem exit_nonzero_only_when_calibredb_missing_witness :
    (main_run emptyLibEnv "output" true none).1 = 0 ∧
      (main_run emptyLibEnv "output" true none).2
        = some (export_all_books emptyLibEnv.fs emptyLibEnv.scriptDir "output"
            true (get_all_books_metadata emptyLibEnv) none) :=
  ⟨(exit_nonzero_only_when_calibredb_missing emptyLibEnv "output" true
      none).1.mpr (by decide),
    (exit_nonzero_only_when_calibredb_missing emptyLibEnv "output" true
      none).2.2 (by decide)⟩


/-! ## C2: the limit is a prefix cut -/

/-- C2 as stated fails for the limit value `0`: `if limit:` is falsy at
`0`, so a one-record list with limit `0` is processed whole (one book),
where the claim demands the first `0` records. -/
theorem limit_zero_processes_all_counterexample :
    ((export_all_books (fun _ => none) "/src" "output" false
        [[("id", vInt 1)]] (some 0)).1.booksJs).map List.length = some 1 ∧
      ¬ ((export_all_books (fun _ => none) "/src" "output" false
          [[("id", vInt 1)]] (some 0)).1.booksJs) = some [] := by
  decide

/-- C2 amended: for every positive limit `N` and every raw list of size
`M > N`, `export_all_books` processes exactly the first `N` records of
the list, in their original order, independent of any field values of the
records. -/
theorem limit_processes_first_n (fs : Fs) (scriptDir outputDir : String)
    (exportCovers : Bool) (raws : List RawBook) (n : Int)
    (hn : 0 < n) (hm : n < (raws.length : Int)) :
    (export_all_books fs scriptDir outputDir exportCovers raws (some n)).1.booksJs
      = some ((raws.take n.toNat).map
          (process_book_metadata (fun p => (fs p).isSome))) := by
  have hne : raws.isEmpty = false := by
    cases raws with
    | nil => simp at hm; omega
    | cons a l => rfl
  have hlim : applyLimit raws (some n) = raws.take n.toNat := by
    simp only [applyLimit, pySliceTo]
    rw [if_pos (show n ≠ 0 by omega), if_pos (show (0 : Int) ≤ n by omega)]
  unfold export_all_books
  rw [hne]
  simp only [Bool.false_eq_true, if_false, hlim, processLoop_books]

theorem limit_processes_first_n_witness :
    (0 : Int) < 1 ∧ (1 : Int) < (([[("id", vInt 1)], [("id", vInt 2)]] : List RawBook).length : Int) ∧
      (export_all_books (fun _ => none) "/src" "output" false
          [[("id", vInt 1)], [("id", vInt 2)]] (some 1)).1.booksJs
        = some ((([[("id", vInt 1)], [("id", vInt 2)]] : List RawBook).take (1 : Int).toNat).map
            (process_book_metadata (fun p => (((fun _ => none) : Fs) p).isSome))) :=
  ⟨by decide, by decide,
    limit_processes_first_n (fun _ => none) "/src" "output" false
      [[("id", vInt 1)], [("id", vInt 2)]] 1 (by decide) (by decide)⟩


/-! ## C4: the derived unique identifier -/

/-- C4: the derived unique identifier is the raw `uuid` field when it is a
non-empty string; otherwise the `uuid` entry of a dict-valued
`identifiers` field when that entry is a non-empty string; otherwise the
string `book-<id>` where `id` is the record's `id` field, defaulting to
`0` when absent.  In particular a record lacking `uuid` and
`identifiers.uuid` with `id = 42` derives `"book-42"`. -/
theorem derived_uuid_rule (book : RawBook) :
    (∀ s, pyGet book "uuid" (vStr "") = vStr s → s ≠ "" →
        deriveUuid book = vStr s)
  ∧ (∀ ids t, pyGet book "uuid" (vStr "") = vStr "" →
        pyGet book "identifiers" (vDict []) = vDict ids →
        pyGet ids "uuid" (vStr "") = vStr t → t ≠ "" →
        deriveUuid book = vStr t)
  ∧ (∀ n : Int, pyGet book "uuid" (vStr "") = vStr "" →
        (∀ ids, pyGet book "identifiers" (vDict []) = vDict ids →
            pyGet ids "uuid" (vStr "") = vStr "") →
        pyGet book "id" (vInt 0) = vInt n →
        deriveUuid book = vStr ("book-" ++ toString n))
  ∧ deriveUuid [("id", vInt 42)] = vStr "book-42" := by
  refine ⟨?_, ?_, ?_, by decide⟩
  · intro s hu hs
    have ht : (vStr s).truthy = true := by simp [PyVal.truthy, hs]
    simp [deriveUuid, hu, ht]
  · intro ids t hu hid hiu ht
    have htt : (vStr t).truthy = true := by simp [PyVal.truthy, ht]
    cases hcb : pyContains book "identifiers"
    · have h0 : pyGet book "identifiers" (vDict []) = vDict [] :=
        pyGet_not_contains _ hcb
      rw [hid] at h0
      obtain rfl : ids = ([] : RawBook) := PyVal.vDict.inj h0
      exact absurd (PyVal.vStr.inj hiu).symm ht
    · have e0 : (vStr "").truthy = false := rfl
      simp [deriveUuid, hu, hcb, hid, hiu, htt, e0]
  · intro n hu hids hid
    have goal2 : deriveUuid book
        = vStr ("book-" ++ (pyGet book "id" (vInt 0)).pyStr) := by
      unfold deriveUuid
      rw [hu]
      have e0 : (vStr "").truthy = false := rfl
      cases hcb : pyContains book "identifiers"
      · simp [e0]
      · cases hv : pyGet book "identifiers" (vDict [])
        case vDict ids =>
          have h2 := hids ids hv
          simp [e0, h2]
        all_goals simp [e0]
    rw [goal2, hid]
    rfl

theorem derived_uuid_rule_witness :
    pyGet [("uuid", vStr ""), ("identifiers", vDict [("uuid", vStr "x-1")])]
        "uuid" (vStr "") = vStr "" ∧
      deriveUuid [("uuid", vStr ""), ("identifiers", vDict [("uuid", vStr "x-1")])]
        = vStr "x-1" :=
  ⟨by decide,
    (derived_uuid_rule
        [("uuid", vStr ""), ("identifiers", vDict [("uuid", vStr "x-1")])]).2.1
      [("uuid", vStr "x-1")] "x-1" (by decide) (by decide) (by decide) (by decide)⟩

/-! ## C6: authors normalization -/

/-- C6: a string-valued authors field is split on `&` with each segment
stripped (`"A & B"` yields `["A", "B"]`); a non-empty list is kept as-is;
any other truthy value is wrapped as the one-element list of its `str`
form; a falsy (empty or absent) value yields the empty list. -/
theorem authors_normalization (v : PyVal) :
    (∀ s, v = vStr s → s ≠ "" →
        processAuthors v = (pySplit s '&').map (fun a => vStr (pyStrip a)))
  ∧ (∀ xs, v = vList xs → xs ≠ [] → processAuthors v = xs)
  ∧ (v.truthy = true → (∀ s, v ≠ vStr s) → (∀ xs, v ≠ vList xs) →
        processAuthors v = [vStr v.pyStr])
  ∧ (v.truthy = false → processAuthors v = [])
  ∧ processAuthors (vStr "A & B") = [vStr "A", vStr "B"] := by
  refine ⟨?_, ?_, ?_, ?_, by decide⟩
  · rintro s rfl hs
    simp [processAuthors, PyVal.truthy, hs]
  · rintro xs rfl hxs
    cases xs with
    | nil => exact absurd rfl hxs
    | cons a l => simp [processAuthors, PyVal.truthy]
  · intro ht hns hnl
    cases v with
    | vNone => exact Bool.noConfusion ht
    | vBool b => simp [processAuthors, ht]
    | vInt n => simp [processAuthors, ht]
    | vStr s => exact absurd rfl (hns s)
    | vList l => exact absurd rfl (hnl l)
    | vDict d => simp [processAuthors, ht]
  · intro hf
    simp [processAuthors, hf]

theorem authors_normalization_witness :
    (vStr "A & B" : PyVal) = vStr "A & B" ∧ ("A & B" : String) ≠ "" ∧
      processAuthors (vStr "A & B")
        = (pySplit "A & B" '&').map (fun a => vStr (pyStrip a)) :=
  ⟨rfl, by decide,
    (authors_normalization (vStr "A & B")).1 "A & B" rfl (by decide)⟩


/-! ## C3: the metadata mapping -/

theorem pyLookup_cons_self (k : PyVal) (v : MetaEntry) (d : MetaDict) :
    pyLookup ((k, v) :: d) k = some v := by
  unfold pyLookup
  rw [List.find?_cons_of_pos _ (by simp)]
  rfl

theorem pyLookup_cons_ne (k q : PyVal) (v : MetaEntry) (d : MetaDict)
    (h : ¬ k = q) :
    pyLookup ((k, v) :: d) q = pyLookup d q := by
  unfold pyLookup
  rw [List.find?_cons_of_neg _ (by simp [h])]

/-- Overwriting map: rewriting every entry keyed `k` to `(k, v)` changes a
lookup of `k` into `v` exactly when some entry with key `k` exists, and
leaves every other lookup unchanged. -/
theorem pyLookup_overwrite (k : PyVal) (v : MetaEntry) :
    ∀ (d : MetaDict) (q : PyVal),
      pyLookup (d.map (fun kv => if kv.1 = k then (k, v) else kv)) q
        = if q = k then (pyLookup d k).map (fun _ => v) else pyLookup d q
  | [], q => by
    by_cases h : q = k <;> simp [pyLookup, h]
  | (k0, v0) :: rest, q => by
    simp only [List.map_cons]
    by_cases hk0 : k0 = k
    · subst hk0
      rw [if_pos rfl]
      by_cases hq : q = k0
      · subst hq
        rw [if_pos rfl, pyLookup_cons_self, pyLookup_cons_self]
        rfl
      · rw [pyLookup_cons_ne _ _ _ _ (fun e => hq e.symm),
            pyLookup_overwrite k0 v rest q, if_neg hq, if_neg hq,
            pyLookup_cons_ne _ _ _ _ (fun e => hq e.symm)]
    · rw [if_neg hk0]
      by_cases hq : q = k0
      · subst hq
        rw [pyLookup_cons_self, if_neg hk0, pyLookup_cons_self]
      · rw [pyLookup_cons_ne _ _ _ _ (fun e => hq e.symm),
            pyLookup_overwrite k v rest q,
            pyLookup_cons_ne _ _ _ _ (fun e => hq e.symm)]
        by_cases hqk : q = k
        · rw [if_pos hqk, if_pos hqk, pyLookup_cons_ne _ _ _ _ hk0]
        · rw [if_neg hqk, if_neg hqk]

/-- Appending a fresh key: when no entry is keyed `k`, looking up `k` in
`d ++ [(k, v)]` gives `v` and every other lookup is unchanged. -/
theorem pyLookup_append_fresh (k : PyVal) (v : MetaEntry) :
    ∀ (d : MetaDict) (q : PyVal), d.any (fun kv => kv.1 = k) = false →
      pyLookup (d ++ [(k, v)]) q = if q = k then some v else pyLookup d q
  | [], q, _ => by
    by_cases h : q = k
    · subst h
      simp only [List.nil_append]
      rw [pyLookup_cons_self]
      simp
    · simp only [List.nil_append]
      rw [pyLookup_cons_ne _ _ _ _ (fun e => h e.symm), if_neg h]
  | (k0, v0) :: rest, q, h => by
    rw [List.any_cons] at h
    have hh := Bool.or_eq_false_iff.mp h
    have hk0 : ¬ (k0 = k) := of_decide_eq_false hh.1
    by_cases hq : q = k0
    · subst hq
      rw [List.cons_append, pyLookup_cons_self, if_neg hk0, pyLookup_cons_self]
    · rw [List.cons_append, pyLookup_cons_ne _ _ _ _ (fun e => hq e.symm),
          pyLookup_append_fresh k v rest q hh.2,
          pyLookup_cons_ne _ _ _ _ (fun e => hq e.symm)]

theorem pyLookup_isSome_iff_any (d : MetaDict) (k : PyVal) :
    (pyLookup d k).isSome = d.any (fun kv => kv.1 = k) := by
  induction d with
  | nil => rfl
  | cons kv rest ih =>
    obtain ⟨a, b⟩ := kv
    rw [List.any_cons]
    by_cases hk : a = k
    · subst hk
      rw [pyLookup_cons_self]
      simp
    · rw [pyLookup_cons_ne _ _ _ _ hk, ih]
      simp [hk]

/-- Python dict assignment `d[k] = v`, characterized by lookups:
the assigned key maps to `v`, every other key is untouched. -/
theorem pyLookup_insert (d : MetaDict) (k : PyVal) (v : MetaEntry) (q : PyVal) :
    pyLookup (pyInsert d k v) q = if q = k then some v else pyLookup d q := by
  unfold pyInsert
  cases ha : d.any (fun kv => kv.1 = k) with
  | true =>
    rw [if_pos rfl]
    rw [pyLookup_overwrite k v d q]
    by_cases hq : q = k
    · subst hq
      rw [if_pos rfl, if_pos rfl]
      have hs : (pyLookup d q).isSome = true := by
        rw [pyLookup_isSome_iff_any]; exact ha
      cases hl : pyLookup d q with
      | none => rw [hl] at hs; exact Bool.noConfusion hs
      | some w => rfl
    · rw [if_neg hq, if_neg hq]
  | false =>
    rw [if_neg (by simp)]
    exact pyLookup_append_fresh k v d q ha

/-- A key occurs in the mapping iff its lookup succeeds. -/
theorem mem_keys_iff_isSome (d : MetaDict) (k : PyVal) :
    k ∈ d.map Prod.fst ↔ (pyLookup d k).isSome := by
  rw [pyLookup_isSome_iff_any, List.any_eq_true, List.mem_map]
  constructor
  · rintro ⟨x, hx, rfl⟩
    exact ⟨x, hx, by simp⟩
  · rintro ⟨x, hx, he⟩
    exact ⟨x, hx, of_decide_eq_true he⟩

/-- The processing loop, characterized by lookups: a key maps to the
metadata entry of the last processed book in input order that derives it,
falling back to the initial mapping. -/
theorem processLoop_lookup (ex : String → Bool) :
    ∀ (raws : List RawBook) (d : MetaDict) (q : PyVal),
      pyLookup (processLoop ex raws d).2 q
        = match raws.reverse.find?
            (fun r => (process_book_metadata ex r).uuid = q) with
          | some r => some (mkMetaEntry (process_book_metadata ex r))
          | none => pyLookup d q
  | [], d, q => rfl
  | r :: rs, d, q => by
    show pyLookup (processLoop ex rs (pyInsert d
        (process_book_metadata ex r).uuid
        (mkMetaEntry (process_book_metadata ex r)))).2 q = _
    rw [processLoop_lookup ex rs _ q, List.reverse_cons, List.find?_append,
      List.find?_singleton]
    cases hf : rs.reverse.find?
        (fun r' => (process_book_metadata ex r').uuid = q) with
    | some r' => simp [Option.or]
    | none =>
      rw [pyLookup_insert]
      by_cases hq : (process_book_metadata ex r).uuid = q
      · rw [if_pos hq.symm]
        simp [Option.or, hq]
      · rw [if_neg (fun e => hq e.symm)]
        simp [Option.or, hq]

/-- C3: whenever a run writes `metadata.js`, the key set of the written
mapping equals the set of derived unique identifiers of the processed
books, and a key's entry is the one of the last processed book in input
order deriving that identifier (last write wins on duplicates). -/
theorem metadata_keys_and_last_write_wins (fs : Fs)
    (scriptDir outputDir : String) (exportCovers : Bool)
    (raws : List RawBook) (limit : Option Int) (md : MetaDict) (k : PyVal)
    (h : (export_all_books fs scriptDir outputDir exportCovers raws
        limit).1.metadataJs = some md) :
    (k ∈ md.map Prod.fst
        ↔ k ∈ ((applyLimit raws limit).map
            (process_book_metadata (fun p => (fs p).isSome))).map
              (fun b => b.uuid))
      ∧ pyLookup md k
          = (((applyLimit raws limit).map
                (process_book_metadata (fun p => (fs p).isSome))).reverse.find?
              (fun b => b.uuid = k)).map mkMetaEntry := by
  have hmd : md = (processLoop (fun p => (fs p).isSome)
      (applyLimit raws limit) []).2 := by
    unfold export_all_books at h
    cases he : raws.isEmpty with
    | true => rw [he] at h; exact Option.noConfusion (h : none = some md)
    | false =>
      rw [he] at h
      simp only [Bool.false_eq_true, if_false] at h
      exact (Option.some.inj h).symm
  have hlook : pyLookup md k
      = (((applyLimit raws limit).map
            (process_book_metadata (fun p => (fs p).isSome))).reverse.find?
          (fun b => b.uuid = k)).map mkMetaEntry := by
    rw [hmd, processLoop_lookup, ← List.map_reverse, List.find?_map]
    cases hf : (applyLimit raws limit).reverse.find?
        ((fun b => decide (b.uuid = k)) ∘
          process_book_metadata (fun p => (fs p).isSome)) with
    | none =>
      have hf2 : (applyLimit raws limit).reverse.find?
          (fun r => (process_book_metadata (fun p => (fs p).isSome) r).uuid = k)
          = none := hf
      rw [hf2]
      rfl
    | some r =>
      have hf2 : (applyLimit raws limit).reverse.find?
          (fun r => (process_book_metadata (fun p => (fs p).isSome) r).uuid = k)
          = some r := hf
      rw [hf2]
      rfl
  refine ⟨?_, hlook⟩
  rw [mem_keys_iff_isSome, hlook]
  simp [List.find?_isSome, List.mem_reverse, List.mem_map]

/-- Two raw records deriving the same identifier, the later with a
distinguishable title. -/
def dupRaws : List RawBook :=
  [[("uuid", vStr "u"), ("title", vStr "A")],
   [("uuid", vStr "u"), ("title", vStr "B")]]

def noFs : Fs := fun _ => none

theorem metadata_keys_and_last_write_wins_witness :
    (vStr "u" ∈ ((processLoop (fun p => ((noFs p).isSome))
          (applyLimit dupRaws none) []).2).map Prod.fst
        ↔ vStr "u" ∈ ((applyLimit dupRaws none).map
            (process_book_metadata (fun p => (noFs p).isSome))).map
              (fun b => b.uuid))
      ∧ pyLookup ((processLoop (fun p => ((noFs p).isSome))
            (applyLimit dupRaws none) []).2) (vStr "u")
          = (((applyLimit dupRaws none).map
                (process_book_metadata (fun p => (noFs p).isSome))).reverse.find?
              (fun b => b.uuid = vStr "u")).map mkMetaEntry :=
  metadata_keys_and_last_write_wins noFs "/src" "output" false dupRaws none
    ((processLoop (fun p => ((noFs p).isSome)) (applyLimit dupRaws none) []).2)
    (vStr "u") rfl

/-! ## C8: idempotence of the cover-copy step -/

/-- Dichotomy for the cover-copy fold: starting from two filesystems that
agree on every book's cover source, each path either receives the same
copied content in both runs, or is left at its base value in both. -/
theorem coverCopyOne_src_none (outputDir : String) (fs : Fs)
    (b : NormalizedBook) (h : coverSrc b = none) :
    coverCopyOne outputDir fs b = fs := by
  unfold coverCopyOne
  rw [h]

theorem coverCopyOne_src_some (outputDir : String) (fs : Fs)
    (b : NormalizedBook) (s : String) (h : coverSrc b = some s) :
    coverCopyOne outputDir fs b
      = if (fs s).isSome then fsWrite fs (coverDest outputDir b) (fs s)
        else fs := by
  unfold coverCopyOne
  rw [h]

theorem coverCopyStep_dichotomy (outputDir : String) :
    ∀ (bs : List NormalizedBook) (fsA fsB : Fs),
      (∀ b ∈ bs, ∀ s, coverSrc b = some s → fsA s = fsB s) →
      ∀ p, coverCopyStep outputDir bs fsA p = coverCopyStep outputDir bs fsB p
        ∨ (coverCopyStep outputDir bs fsA p = fsA p
            ∧ coverCopyStep outputDir bs fsB p = fsB p)
  | [], fsA, fsB, _, p => Or.inr ⟨rfl, rfl⟩
  | b :: bs, fsA, fsB, hagr, p => by
    have hstep : ∀ q, coverCopyOne outputDir fsA b q = coverCopyOne outputDir fsB b q
        ∨ (coverCopyOne outputDir fsA b q = fsA q
            ∧ coverCopyOne outputDir fsB b q = fsB q) := by
      intro q
      cases hcs : coverSrc b with
      | none =>
        rw [coverCopyOne_src_none outputDir fsA b hcs,
          coverCopyOne_src_none outputDir fsB b hcs]
        exact Or.inr ⟨rfl, rfl⟩
      | some s =>
        rw [coverCopyOne_src_some outputDir fsA b s hcs,
          coverCopyOne_src_some outputDir fsB b s hcs]
        have hss : fsA s = fsB s := hagr b (List.mem_cons_self b bs) s hcs
        rw [hss]
        cases hex : (fsB s).isSome with
        | false =>
          rw [if_neg (nofun : ¬ false = true), if_neg (nofun : ¬ false = true)]
          exact Or.inr ⟨rfl, rfl⟩
        | true =>
          rw [if_pos rfl, if_pos rfl]
          by_cases hq : q = coverDest outputDir b
          · subst hq
            exact Or.inl (by unfold fsWrite; rw [if_pos rfl, if_pos rfl])
          · exact Or.inr ⟨by unfold fsWrite; rw [if_neg hq],
              by unfold fsWrite; rw [if_neg hq]⟩
    have hagr2 : ∀ b' ∈ bs, ∀ s, coverSrc b' = some s →
        coverCopyOne outputDir fsA b s = coverCopyOne outputDir fsB b s := by
      intro b' hb' s hcs
      cases hstep s with
      | inl h => exact h
      | inr h =>
        rw [h.1, h.2]
        exact hagr b' (List.mem_cons_of_mem b hb') s hcs
    have hfold : coverCopyStep outputDir (b :: bs) fsA
        = coverCopyStep outputDir bs (coverCopyOne outputDir fsA b) := rfl
    have hfoldB : coverCopyStep outputDir (b :: bs) fsB
        = coverCopyStep outputDir bs (coverCopyOne outputDir fsB b) := rfl
    rw [hfold, hfoldB]
    cases coverCopyStep_dichotomy outputDir bs
        (coverCopyOne outputDir fsA b) (coverCopyOne outputDir fsB b) hagr2 p with
    | inl h => exact Or.inl h
    | inr h =>
      rw [h.1, h.2]
      exact hstep p

/-- C8: running the cover-copy step twice on the same output directory
with the same book list is the same as running it once, provided the
first run leaves the content at every book's cover source unchanged (the
claim's "same source filesystem contents"). -/
theorem coverCopyStep_idempotent (outputDir : String)
    (bs : List NormalizedBook) (fs : Fs)
    (h : ∀ b ∈ bs, ∀ s, coverSrc b = some s →
        coverCopyStep outputDir bs fs s = fs s) :
    coverCopyStep outputDir bs (coverCopyStep outputDir bs fs)
      = coverCopyStep outputDir bs fs := by
  funext p
  cases coverCopyStep_dichotomy outputDir bs
      (coverCopyStep outputDir bs fs) fs h p with
  | inl hl => exact hl
  | inr hr => exact hr.1

/-- A processed book with an absolute, existing cover. -/
def b0W : NormalizedBook :=
  process_book_metadata (fun _ => false)
    [("uuid", vStr "u1"), ("cover", vStr "/lib/src.jpg")]

def fs0W : Fs := fun p => if p = "/lib/src.jpg" then some "IMG" else none

theorem coverCopyStep_idempotent_witness :
    coverCopyStep "out" [b0W] (coverCopyStep "out" [b0W] fs0W)
      = coverCopyStep "out" [b0W] fs0W :=
  coverCopyStep_idempotent "out" [b0W] fs0W (by
    intro b hb s hs
    rcases List.mem_singleton.mp hb with rfl
    have hcs : coverSrc b0W = some "/lib/src.jpg" := by decide
    rw [hcs] at hs
    rcases Option.some.inj hs with rfl
    decide)

/-! ## C5: publication-date normalization -/

/-- C5: for a string pubdate containing the separator `'T'` that parses
as ISO-8601 after the `Z` replacement, normalization reformats it to
`YYYY-MM-DD`; for a pubdate whose string is unparseable, normalization
returns the original string unchanged. -/
theorem pubdate_normalization (s : String) :
    (∀ d, pyInStr s 'T' = true → fromisoformat (replaceZ s) = some d →
        processPubdate (vStr s) = vStr (formatYMD d))
  ∧ (fromisoformat (replaceZ s) = none → processPubdate (vStr s) = vStr s) := by
  constructor
  · intro d hT hp
    have hs : s ≠ "" := by
      intro e
      rw [e] at hT
      exact Bool.noConfusion hT
    have ht : (vStr s).truthy = true := by simp [PyVal.truthy, hs]
    simp [processPubdate, ht, hT, hp]
  · intro hp
    by_cases hs : s = ""
    · subst hs; rfl
    · have ht : (vStr s).truthy = true := by simp [PyVal.truthy, hs]
      cases hT : pyInStr s 'T' with
      | true => simp [processPubdate, ht, hT, hp]
      | false => simp [processPubdate, ht, hT]

theorem pubdate_normalization_witness :
    pyInStr "2020-05-01T00:00:00Z" 'T' = true ∧
      fromisoformat (replaceZ "2020-05-01T00:00:00Z")
        = some ⟨2020, 5, 1⟩ ∧
      processPubdate (vStr "2020-05-01T00:00:00Z")
        = vStr (formatYMD ⟨2020, 5, 1⟩) :=
  ⟨by decide, by decide,
    (pubdate_normalization "2020-05-01T00:00:00Z").1 ⟨2020, 5, 1⟩
      (by decide) (by decide)⟩

end CalibreExport
